import Mathlib

/-!
Verification development for the reqq request-file model (src/src/request.rs).

The Rust code is shallowly embedded over `List Char`: each Rust string
operation used by `Request::parse`, `Request::name`, `Request::load`,
`Request::apply_combined_args` and `Request::apply_env` is translated to an
executable Lean function, and the claims of the specification are settled as
theorems about those functions.
-/

namespace Reqq

/-- Character list of a string literal (Rust strings are handled as `List Char`). -/
def chars (s : String) : List Char := s.data

/-! ## Rust `str::lines`

`str::lines` splits at every `\n`, also removing a `\r` that directly
precedes a `\n`; a final trailing empty segment produced by a trailing
line terminator is not a line. -/

/-- Split a character list at every newline; yields one more segment than
there are newline characters. -/
def splitNl : List Char → List (List Char)
  | [] => [[]]
  | c :: t =>
    if c = '\n' then [] :: splitNl t
    else
      match splitNl t with
      | [] => [[c]]
      | h :: r => (c :: h) :: r

/-- Remove one trailing carriage return (the `\r` of a `\r\n` terminator). -/
def stripCr (p : List Char) : List Char :=
  if p.getLast? = some '\r' then p.dropLast else p

/-- Post-process `splitNl` segments: every segment except the last was
terminated by a `\n` and loses a preceding `\r`; the last segment is dropped
when empty (optional final line terminator). -/
def trimParts : List (List Char) → List (List Char)
  | [] => []
  | [p] => if p = [] then [] else [p]
  | p :: rest => stripCr p :: trimParts rest

/-- Model of Rust `str::lines` on the request file text. -/
def rustLines (l : List Char) : List (List Char) := trimParts (splitNl l)

/-! ## Substring splitting (Rust `str::splitn(2, pat)` and pattern search) -/

/-- Split at the first occurrence of `sep`, returning the part before it and
the part after it; `none` when `sep` does not occur. -/
def splitOnFirst (sep : List Char) : List Char → Option (List Char × List Char)
  | [] => if sep = [] then some ([], []) else none
  | c :: t =>
    if sep <+: (c :: t) then some ([], (c :: t).drop sep.length)
    else (splitOnFirst sep t).map (fun p => (c :: p.1, p.2))

/-- Model of Rust `str::splitn(2, sep)`: the first part always exists (the
whole string when `sep` does not occur), the second is the remainder after
the first occurrence of `sep` when there is one. -/
def splitn2 (sep l : List Char) : List Char × Option (List Char) :=
  match splitOnFirst sep l with
  | some (a, b) => (a, some b)
  | none => (l, none)

theorem splitOnFirst_length (sep l a b : List Char)
    (h : splitOnFirst sep l = some (a, b)) :
    a.length + sep.length + b.length = l.length := by
  induction l generalizing a b with
  | nil =>
    simp only [splitOnFirst] at h
    split at h
    · rename_i hsep
      simp_all
    · exact Option.noConfusion h
  | cons c t ih =>
    simp only [splitOnFirst] at h
    split at h
    · rename_i hpre
      have hle := hpre.length_le
      simp only [List.length_cons] at hle
      injection h with h2
      injection h2 with ha hb
      subst ha; subst hb
      simp only [List.length_nil, List.length_drop, List.length_cons]
      omega
    · match hsp : splitOnFirst sep t with
      | none => rw [hsp] at h; exact Option.noConfusion h
      | some (a2, b2) =>
        rw [hsp] at h
        simp only [Option.map_some'] at h
        injection h with h2
        injection h2 with ha hb
        subst ha; subst hb
        have := ih a2 b2 hsp
        simp only [List.length_cons]
        omega

theorem splitOnFirst_some_occurs (sep l : List Char) (p : List Char × List Char)
    (h : splitOnFirst sep l = some p) : sep <:+: l := by
  induction l generalizing p with
  | nil =>
    simp only [splitOnFirst] at h
    split at h
    · rename_i hsep; subst hsep; exact List.infix_rfl
    · exact Option.noConfusion h
  | cons c t ih =>
    simp only [splitOnFirst] at h
    split at h
    · rename_i hpre
      exact hpre.isInfix
    · match hsp : splitOnFirst sep t with
      | none => rw [hsp] at h; exact Option.noConfusion h
      | some q =>
        exact List.infix_cons (ih q hsp)

/-! ## The header regex `^[A-Za-z0-9-]+:\s*.+$`

`Regex::is_match` over a header line.  The translation: a match needs a
nonempty run of `[A-Za-z0-9-]` characters, immediately followed by a colon,
then a possibly empty run of whitespace, then at least one character, where
`.` never matches a newline and the anchors span the whole line. -/

/-- Characters matched by the regex class `[A-Za-z0-9-]`. -/
def isHeaderPatChar (c : Char) : Bool := c.isAlphanum || c == '-'

/-- Characters matched by the regex class `\s` (ASCII part). -/
def isWsChar (c : Char) : Bool :=
  c == ' ' || c == '\t' || c == '\n' || c == '\r' || c == '\x0b' || c == '\x0c'

/-- Whether a suffix matches the regex fragment `\s*.+$`: either the whole
suffix is nonempty and free of newlines (consumed by `.+`), or the head is
whitespace consumed by `\s*` and the rest matches. -/
def tailMatch : List Char → Bool
  | [] => false
  | c :: t => ((c != '\n') && t.all (fun d => d != '\n')) || (isWsChar c && tailMatch t)

/-- Model of `header_regex.is_match(line)` for `^[A-Za-z0-9-]+:\s*.+$`.
The name run is forced to be the maximal `[A-Za-z0-9-]` prefix because a
colon can never be part of it. -/
def headerRegexMatch (l : List Char) : Bool :=
  let name := l.takeWhile isHeaderPatChar
  match l.drop name.length with
  | [] => false
  | c :: rest => !name.isEmpty && c == ':' && tailMatch rest

/-! ## Models of the http crate token validators -/

/-- Non-alphanumeric bytes allowed in HTTP tokens (methods and header
names) by the http crate tables: `! # $ % & ' * + - . ^ _ \x60 | ~`. -/
def isTokenSpecial (c : Char) : Bool :=
  (chars "!#$%&*+-.^_|~").contains c || c == Char.ofNat 96 || c == Char.ofNat 39

/-- Bytes accepted by `Method::from_bytes` for extension methods. -/
def isMethodChar (c : Char) : Bool := c.isAlphanum || isTokenSpecial c

/-- Model of `Method::from_bytes`: nonempty token of valid method bytes,
kept verbatim (standard methods are a subset of this). -/
def methodParse (l : List Char) : Option (List Char) :=
  if l ≠ [] ∧ l.all isMethodChar = true then some l else none

/-- Bytes accepted by `HeaderName::from_bytes`; uppercase letters are
accepted and normalized to lowercase. -/
def isHeaderNameChar (c : Char) : Bool := c.isAlphanum || isTokenSpecial c

/-- Model of `HeaderName::from_bytes`: validates every byte and lowercases. -/
def headerNameParse (l : List Char) : Option (List Char) :=
  if l ≠ [] ∧ l.all isHeaderNameChar = true then some (l.map Char.toLower) else none

/-- Bytes accepted by `HeaderValue::from_bytes`: horizontal tab and any byte
that is at least 32 and not DEL. -/
def isHeaderValueChar (c : Char) : Bool := c == '\t' || (32 ≤ c.toNat && c.toNat ≠ 127)

/-- Model of `HeaderValue::from_bytes`: validates every byte, keeps the value
verbatim (the empty value is legal). -/
def headerValueParse (l : List Char) : Option (List Char) :=
  if l.all isHeaderValueChar = true then some l else none

/-! ## Model of `Url::parse` (external url crate)

Restricted to the absolute `scheme://host[/path]` shapes the repository
exercises: an alphabetic scheme, a nonempty host of alphanumeric, `-`, `.`
or `:` characters, and a visible-ASCII path.  Scheme and host are
lowercased and a bare-authority URL gains the trailing `/` of the default
path normalization; anything outside this subset is rejected. -/

def isSchemeChar (c : Char) : Bool := c.isAlpha

def isHostChar (c : Char) : Bool := c.isAlphanum || c == '-' || c == '.' || c == ':'

def isPathChar (c : Char) : Bool := 32 < c.toNat && c.toNat < 127

/-- Model of `Url::parse` followed by `Url::as_str`: the normalized
serialization of a well-formed absolute URL, `none` on failure. -/
def urlParse (l : List Char) : Option (List Char) :=
  match splitOnFirst (chars "://") l with
  | none => none
  | some (scheme, rest) =>
    let host := rest.takeWhile (fun c => c != '/')
    let path := rest.drop host.length
    if (!scheme.isEmpty && scheme.all isSchemeChar
        && !host.isEmpty && host.all isHostChar && path.all isPathChar) = true then
      some (scheme.map Char.toLower ++ chars "://" ++ host.map Char.toLower ++
        (if path.isEmpty then ['/'] else path))
    else none

/-! ## JSON-like values and the handlebars template model -/

/-- JSON-like variable values (serde_json values restricted to the scalar
shapes the repository exercises). -/
inductive JsonVal where
  | str : String → JsonVal
  | num : Int → JsonVal
  | boolean : Bool → JsonVal
  | null : JsonVal
deriving DecidableEq

/-- Stringified form of a bound value as the template engine renders it:
strings unquoted, numbers as numeric literals, booleans as true/false,
null as empty text. -/
def JsonVal.renderStr : JsonVal → List Char
  | .str s => s.data
  | .num n => (toString n).data
  | .boolean b => (toString b).data
  | .null => []

/-- Whitespace trimming around a placeholder identifier. -/
def trimWs (l : List Char) : List Char :=
  ((l.dropWhile isWsChar).reverse.dropWhile isWsChar).reverse

/-- Opening placeholder delimiter (two opening braces). -/
def tmplOpen : List Char := chars "\x7b\x7b"

/-- Closing placeholder delimiter (two closing braces). -/
def tmplClose : List Char := chars "\x7d\x7d"

/-- Model of `Handlebars::render_template` for simple variable placeholders:
copy text up to the first opening delimiter, look the trimmed identifier up
in the mapping (an unbound identifier renders as empty text in the default
non-strict mode), substitute its stringified value without re-scanning it,
and continue after the closing delimiter; an unclosed placeholder is a
template error.  The fuel argument only bounds the recursion; each
substitution consumes at least the two delimiters, so `renderChars` below
always supplies enough. -/
def renderAux (m : List (String × JsonVal)) : Nat → List Char → Option (List Char)
  | 0, _ => none
  | Nat.succ fuel, l =>
    match splitOnFirst tmplOpen l with
    | none => some l
    | some (pre, rest) =>
      match splitOnFirst tmplClose rest with
      | none => none
      | some (inside, after) =>
        let v : List Char :=
          match List.lookup (String.mk (trimWs inside)) m with
          | some jv => jv.renderStr
          | none => []
        (renderAux m fuel after).map (fun r => pre ++ v ++ r)

/-- Template rendering of a whole request-file text. -/
def renderChars (m : List (String × JsonVal)) (l : List Char) : Option (List Char) :=
  renderAux m (l.length + 1) l

/-! ## The variable merger (`apply_combined_args` / `apply_env`)

`HashMap` is modeled behaviorally as an association list in which `insert`
drops any previous binding of the key; iteration order of a map with
distinct keys does not affect the merged result. -/

/-- Behavioral model of `HashMap::insert`: bind `k`, dropping any previous
binding of `k`. -/
def hmInsert (m : List (String × JsonVal)) (k : String) (v : JsonVal) :
    List (String × JsonVal) :=
  (k, v) :: m.filter (fun p => p.1 != k)

/-- The merge of `Request::apply_combined_args`: start from an empty map,
extend it with every environment entry when an environment is supplied
(`Request::apply_env`), then insert every extra argument. -/
def combinedArgs (env : Option (List (String × JsonVal)))
    (extra : List (String × JsonVal)) : List (String × JsonVal) :=
  let c0 : List (String × JsonVal) := []
  let c1 := match env with
    | some e => e.foldl (fun m p => hmInsert m p.1 p.2) c0
    | none => c0
  extra.foldl (fun m p => hmInsert m p.1 p.2) c1

/-! ## `Request::parse` — the three-zone parser -/

/-- Structured parse failures of Zones 1 and 2. -/
inductive ParseErr where
  | malformedRequestLine : ParseErr
  | methodError : ParseErr
  | urlError : ParseErr
  | headerNameError : ParseErr
  | headerValueError : ParseErr
deriving DecidableEq

/-- The `RequestInner` struct: method, normalized URL, ordered header list,
optional body. -/
structure RequestInner where
  method : List Char
  url : List Char
  headers : List (List Char × List Char)
  body : Option (List Char)
deriving DecidableEq

/-- Result of the header loop: collected headers, the body seed (the first
non-matching line, absent when every line matched), and the remaining
lines; or a structured error; or a Rust panic. -/
inductive HeaderScan where
  | ok : List (List Char × List Char) → Option (List Char) → List (List Char) → HeaderScan
  | err : ParseErr → HeaderScan
  | panicked : HeaderScan
deriving DecidableEq

/-- The header loop of `Request::parse`: while a line matches the header
regex, split it at the first `": "`.  The first `splitn` part always exists
(it is the whole line when the separator is absent) and is validated as a
header name first — an invalid byte aborts the parse through `?` with a
name error.  Only then is the second part unwrapped, panicking were it
absent; the name check makes that unreachable (`parseHeaders_no_panic`),
since a separator-free matching line keeps its colon inside the name part.
Then the value is validated and the pair accumulated; the first
non-matching line becomes the body seed and the loop stops. -/
def parseHeaders : List (List Char) → HeaderScan
  | [] => .ok [] none []
  | line :: rest =>
    if headerRegexMatch line = true then
      match headerNameParse (splitn2 (chars ": ") line).1 with
      | none => .err .headerNameError
      | some nm =>
        match (splitn2 (chars ": ") line).2 with
        | none => .panicked
        | some v =>
          match headerValueParse v with
          | none => .err .headerValueError
          | some vv =>
            match parseHeaders rest with
            | .ok hs seed rem => .ok ((nm, vv) :: hs) seed rem
            | e => e
    else .ok [] (some line) rest

/-- The body phase: when lines remain after the header loop, append each to
the seed with a newline separator (`body.unwrap()` panics when no seed was
set, which Zone 2 makes unreachable); when none remain the body is the
seed as-is. -/
def joinBody (seed : Option (List Char)) (rest : List (List Char)) :
    Option (Option (List Char)) :=
  match rest with
  | [] => some seed
  | _ :: _ =>
    match seed with
    | none => none
    | some b => some (some (rest.foldl (fun acc l => acc ++ '\n' :: l) b))

/-- Outcome of the structural parse of one request text. -/
inductive ParseOutcome where
  | ok : RequestInner → ParseOutcome
  | err : ParseErr → ParseOutcome
  | panicked : ParseOutcome
deriving DecidableEq

/-- Zones 2 and 3 of `Request::parse`, after the request line produced a
method and a URL. -/
def afterZone1 (M u : List Char) (tail : List (List Char)) : ParseOutcome :=
  match parseHeaders tail with
  | .panicked => .panicked
  | .err e => .err e
  | .ok hs seed rem =>
    match joinBody seed rem with
    | none => .panicked
    | some b => .ok ⟨M, u, hs, b⟩

/-- The line-level body of `Request::parse`: Zone 1 splits the first line at
the first space, validates the method bytes, then parses the remainder as a
URL; the following lines go through Zones 2 and 3. -/
def parseLines : List (List Char) → ParseOutcome
  | [] => .err .malformedRequestLine
  | fline :: tail =>
    match methodParse (splitn2 [' '] fline).1 with
    | none => .err .methodError
    | some M =>
      match (splitn2 [' '] fline).2 with
      | none => .err .malformedRequestLine
      | some urlRaw =>
        match urlParse urlRaw with
        | none => .err .urlError
        | some u => afterZone1 M u tail

/-- Structural parse of a request-file text (`fstr.lines()` then the three
zones). -/
def parseFile (t : List Char) : ParseOutcome := parseLines (rustLines t)

/-! ## The `Request` struct and its lifecycle -/

/-- The `Request` struct: file path, optional cached text, optional parsed
request. -/
structure Request where
  fpath : List Char
  fstr : Option (List Char)
  inner : Option RequestInner
deriving DecidableEq

/-- Model of `Request::load` over an abstract file system `fs`; the `Nat`
counts how many file reads the call performed. -/
def Request.load (fs : List Char → Option (List Char)) (r : Request) :
    Option (Request × Nat) :=
  match r.fstr with
  | some _ => some (r, 0)
  | none =>
    match fs r.fpath with
    | some s => some ({ r with fstr := some s }, 1)
    | none => none

/-- Failure of a full `Request::parse` call. -/
inductive Failure where
  | ioError : Failure
  | templateError : Failure
  | parseError : ParseErr → Failure
  | panicked : Failure
deriving DecidableEq

/-- Model of the `Request::parse` method: load the text if absent, render
the template over the merged variables and store the rendered text back
into `fstr` (as `apply_combined_args` does), then structurally parse the
rendered text, storing the parsed request in `inner` on success.  The pair
returns the mutated receiver together with the failure, if any. -/
def Request.parseReq (fs : List Char → Option (List Char)) (r : Request)
    (env : Option (List (String × JsonVal))) (extra : List (String × JsonVal)) :
    Request × Option Failure :=
  match Request.load fs r with
  | none => (r, some .ioError)
  | some (r1, _) =>
    match renderChars (combinedArgs env extra) (r1.fstr.getD []) with
    | none => (r1, some .templateError)
    | some t =>
      let r2 : Request := { r1 with fstr := some t }
      match parseFile t with
      | .ok i => ({ r2 with inner := some i }, none)
      | .err e => (r2, some (.parseError e))
      | .panicked => (r2, some .panicked)

/-! ## `Request::name` -/

/-- Repeated prefix stripping with explicit fuel; `Request::name` supplies
`s.length`, which bounds the number of strips since each removes at least
one character. -/
def tsmAux : Nat → List Char → List Char → List Char
  | 0, s, _ => s
  | Nat.succ n, s, pat =>
    if pat ≠ [] ∧ pat <+: s then tsmAux n (s.drop pat.length) pat else s

/-- Model of Rust `str::trim_start_matches`: repeatedly removes the prefix
while it matches (the empty pattern strips nothing). -/
def trimStartMatches (s pat : List Char) : List Char := tsmAux s.length s pat

/-- Model of Rust `str::trim_end_matches` via reversal. -/
def trimEndMatches (s pat : List Char) : List Char :=
  (trimStartMatches s.reverse pat.reverse).reverse

/-- `Request::name`: strip the directory prefix, then leading slashes, then
the `.reqq` extension, each repeatedly. -/
def nameFn (fpath dir : List Char) : List Char :=
  trimEndMatches (trimStartMatches (trimStartMatches fpath dir) ['/']) (chars ".reqq")

/-- The `name` method on the struct. -/
def Request.name (r : Request) (dir : List Char) : List Char := nameFn r.fpath dir

/-- The transform described by claim C10 (each strip applied exactly once);
kept separate so the claim can be compared with `Request.name`. -/
def nameOnce (fpath dir : List Char) : List Char :=
  let a := if dir <+: fpath then fpath.drop dir.length else fpath
  let b := if ['/'] <+: a then a.drop 1 else a
  if (chars ".reqq") <:+ b then b.take (b.length - (chars ".reqq").length) else b

/-! ## Derived helpers used by the claim statements -/

/-- Successful Zone 1 outcome of a first line: the method token before the
first space and the parsed URL of the remainder. -/
def zone1Parse (l : List Char) : Option (List Char × List Char) :=
  match methodParse (splitn2 [' '] l).1, (splitn2 [' '] l).2 with
  | some M, some urlRaw => (urlParse urlRaw).map (fun u => (M, u))
  | _, _ => none

/-- The header pair a well-formed header line turns into: lowercased name
before the first `": "`, verbatim value after it. -/
def headerPair (l : List Char) : List Char × List Char :=
  match splitn2 (chars ": ") l with
  | (n, some v) => (n.map Char.toLower, v)
  | (n, none) => (n.map Char.toLower, [])

/-- A header line the loop consumes without error: matches the regex,
contains the `": "` separator, and has a valid name and value. -/
def goodHeaderLine (l : List Char) : Bool :=
  headerRegexMatch l &&
    (match splitn2 (chars ": ") l with
     | (n, some v) => (headerNameParse n).isSome && (headerValueParse v).isSome
     | (_, none) => false)

/-- A concrete one-file file system for witness instantiations. -/
def fsConst : List Char → Option (List Char) := fun _ => some (chars "GET http://a")

/-- Concrete template text for the raw-text lifecycle claims: a request
whose header value is the placeholder for `v`. -/
def c6text : List Char := chars "GET http://a\nx: \x7b\x7bv\x7d\x7d"

/-- A request instance whose text is already loaded. -/
def c6req : Request := ⟨chars ".reqq/a.reqq", some c6text, none⟩

/-- Arguments binding `v` to a value that itself looks like a placeholder
for `w`, and `w` to plain text. -/
def c6args : List (String × JsonVal) :=
  [("v", JsonVal.str "\x7b\x7bw\x7d\x7d"), ("w", JsonVal.str "ha")]

/-- The instance after one `parse` call. -/
def c6step1 : Request := (Request.parseReq fsConst c6req none c6args).1

/-! ## Lemmas about repeated prefix stripping -/

theorem tsmAux_nil (n : Nat) (pat : List Char) : tsmAux n [] pat = [] := by
  cases n with
  | zero => rfl
  | succ n =>
    simp only [tsmAux]
    split
    · rename_i h
      exact absurd (List.prefix_nil.mp h.2) h.1
    · rfl

theorem tsmAux_congr (k : Nat) :
    ∀ (s pat : List Char) (n m : Nat), s.length ≤ k → s.length ≤ n → s.length ≤ m →
      tsmAux n s pat = tsmAux m s pat := by
  induction k with
  | zero =>
    intro s pat n m hk _ _
    have : s = [] := List.length_eq_zero.mp (Nat.le_zero.mp hk)
    subst this
    rw [tsmAux_nil, tsmAux_nil]
  | succ k ih =>
    intro s pat n m hk hn hm
    match n, m with
    | 0, m =>
      have : s = [] := List.length_eq_zero.mp (Nat.le_zero.mp hn)
      subst this
      rw [tsmAux_nil, tsmAux_nil]
    | Nat.succ n, 0 =>
      have : s = [] := List.length_eq_zero.mp (Nat.le_zero.mp hm)
      subst this
      rw [tsmAux_nil, tsmAux_nil]
    | Nat.succ n, Nat.succ m =>
      simp only [tsmAux]
      split
      · rename_i h
        have hpat : 0 < pat.length := List.length_pos.mpr h.1
        apply ih
        · simp only [List.length_drop]; omega
        · simp only [List.length_drop]; omega
        · simp only [List.length_drop]; omega
      · rfl

theorem tsmAux_eq_trimStartMatches (n : Nat) (s pat : List Char) (h : s.length ≤ n) :
    tsmAux n s pat = trimStartMatches s pat :=
  tsmAux_congr s.length s pat n s.length Nat.le.refl h Nat.le.refl

theorem trimStartMatches_of_not_step (s pat : List Char)
    (h : ¬ (pat ≠ [] ∧ pat <+: s)) : trimStartMatches s pat = s := by
  unfold trimStartMatches
  cases hn : s.length with
  | zero => rfl
  | succ n =>
    simp only [tsmAux]
    split
    · rename_i h2; exact absurd h2 h
    · rfl

theorem trimStartMatches_step (s pat : List Char) (hne : pat ≠ []) (hpre : pat <+: s) :
    trimStartMatches s pat = trimStartMatches (s.drop pat.length) pat := by
  unfold trimStartMatches
  have hpat : 0 < pat.length := List.length_pos.mpr hne
  have hs : 0 < s.length := Nat.lt_of_lt_of_le hpat hpre.length_le
  cases hn : s.length with
  | zero => omega
  | succ n =>
    simp only [tsmAux]
    rw [if_pos ⟨hne, hpre⟩]
    apply tsmAux_congr (s.drop pat.length).length _ _ _ _ Nat.le.refl
    · simp only [List.length_drop]; omega
    · exact Nat.le.refl

theorem trimStartMatches_append (pat s : List Char) (hne : pat ≠ []) :
    trimStartMatches (pat ++ s) pat = trimStartMatches s pat := by
  rw [trimStartMatches_step (pat ++ s) pat hne (List.prefix_append pat s),
    List.drop_left]

theorem trimStartMatches_slash_append (s ext : List Char)
    (hext : ¬ ['/'] <+: ext) :
    trimStartMatches (s ++ ext) ['/'] = trimStartMatches s ['/'] ++ ext := by
  induction s with
  | nil =>
    rw [List.nil_append, trimStartMatches_of_not_step ext ['/'] (fun h => hext h.2),
      trimStartMatches_of_not_step [] ['/'] (fun h => absurd (List.prefix_nil.mp h.2) h.1),
      List.nil_append]
  | cons c t ih =>
    by_cases hc : c = '/'
    · subst hc
      rw [show ('/' :: t) ++ ext = '/' :: (t ++ ext) from rfl,
        trimStartMatches_step ('/' :: (t ++ ext)) ['/'] (by simp)
          (by simp [List.cons_prefix_cons]),
        trimStartMatches_step ('/' :: t) ['/'] (by simp)
          (by simp [List.cons_prefix_cons])]
      simpa using ih
    · have h1 : ¬ (['/'] ≠ [] ∧ ['/'] <+: (c :: t) ++ ext) := by
        rintro ⟨-, hp⟩
        rw [List.cons_append, List.cons_prefix_cons] at hp
        exact hc hp.1.symm
      have h2 : ¬ (['/'] ≠ [] ∧ ['/'] <+: c :: t) := by
        rintro ⟨-, hp⟩
        rw [List.cons_prefix_cons] at hp
        exact hc hp.1.symm
      rw [trimStartMatches_of_not_step _ _ h1, trimStartMatches_of_not_step _ _ h2,
        List.cons_append]

theorem trimEndMatches_append (s ext : List Char) (hne : ext ≠ []) :
    trimEndMatches (s ++ ext) ext = trimEndMatches s ext := by
  unfold trimEndMatches
  rw [List.reverse_append, trimStartMatches_append ext.reverse s.reverse (by simpa)]

/-! ## Lemmas about the merged variable mapping -/

theorem lookup_filter_self (m : List (String × JsonVal)) (k : String) :
    List.lookup k (m.filter (fun p => p.1 != k)) = none := by
  induction m with
  | nil => rfl
  | cons p t ih =>
    obtain ⟨p1, p2⟩ := p
    by_cases h : p1 = k
    · subst h; simpa [List.filter] using ih
    · have hb : (p1 != k) = true := by simpa using h
      have hb2 : (k == p1) = false := by simpa using Ne.symm h
      simp [List.filter, hb, List.lookup, hb2, ih]

theorem lookup_filter_ne (m : List (String × JsonVal)) (k k2 : String) (h : k2 ≠ k) :
    List.lookup k2 (m.filter (fun p => p.1 != k)) = List.lookup k2 m := by
  induction m with
  | nil => rfl
  | cons p t ih =>
    obtain ⟨p1, p2⟩ := p
    by_cases hp : p1 = k
    · subst hp
      have hb2 : (k2 == p1) = false := by simpa using h
      simp [List.filter, List.lookup, hb2, ih]
    · have hb : (p1 != k) = true := by simpa using hp
      cases hbe : (k2 == p1) with
      | true => simp [List.filter, hb, List.lookup, hbe]
      | false => simp [List.filter, hb, List.lookup, hbe, ih]

theorem lookup_hmInsert (m : List (String × JsonVal)) (k k2 : String) (v : JsonVal) :
    List.lookup k2 (hmInsert m k v) = if k2 = k then some v else List.lookup k2 m := by
  unfold hmInsert
  by_cases h : k2 = k
  · subst h; simp [List.lookup]
  · have hb : (k2 == k) = false := by simpa using h
    simp [List.lookup, hb, h, lookup_filter_ne m k k2 h]

theorem lookup_none_of_not_mem (l : List (String × JsonVal)) (k : String)
    (h : k ∉ l.map Prod.fst) : List.lookup k l = none := by
  induction l with
  | nil => rfl
  | cons p t ih =>
    obtain ⟨p1, p2⟩ := p
    simp only [List.map_cons, List.mem_cons, not_or] at h
    have hb : (k == p1) = false := by simpa using h.1
    simp [List.lookup, hb, ih h.2]

theorem lookup_isSome_of_mem (l : List (String × JsonVal)) (k : String)
    (h : k ∈ l.map Prod.fst) : (List.lookup k l).isSome = true := by
  induction l with
  | nil => simp at h
  | cons p t ih =>
    obtain ⟨p1, p2⟩ := p
    simp only [List.map_cons, List.mem_cons] at h
    cases hbe : (k == p1) with
    | true => simp [List.lookup, hbe]
    | false =>
      have : k ≠ p1 := by simpa using hbe
      simp [List.lookup, hbe, ih (h.resolve_left this)]

theorem lookup_foldl_insert_none (l : List (String × JsonVal))
    (m : List (String × JsonVal)) (k : String) (h : List.lookup k l = none) :
    List.lookup k (l.foldl (fun acc p => hmInsert acc p.1 p.2) m) = List.lookup k m := by
  induction l generalizing m with
  | nil => rfl
  | cons p t ih =>
    obtain ⟨p1, p2⟩ := p
    simp only [List.foldl_cons]
    cases hbe : (k == p1) with
    | true => simp [List.lookup, hbe] at h
    | false =>
      simp only [List.lookup, hbe] at h
      rw [ih _ h, lookup_hmInsert]
      simp [show k ≠ p1 by simpa using hbe]

theorem lookup_foldl_insert_some (l : List (String × JsonVal))
    (m : List (String × JsonVal)) (k : String) (v : JsonVal)
    (hnd : (l.map Prod.fst).Nodup) (h : List.lookup k l = some v) :
    List.lookup k (l.foldl (fun acc p => hmInsert acc p.1 p.2) m) = some v := by
  induction l generalizing m with
  | nil => simp [List.lookup] at h
  | cons p t ih =>
    obtain ⟨p1, p2⟩ := p
    simp only [List.map_cons, List.nodup_cons] at hnd
    simp only [List.foldl_cons]
    cases hbe : (k == p1) with
    | true =>
      have hk : k = p1 := by simpa using hbe
      subst hk
      simp only [List.lookup, hbe, Option.some.injEq] at h
      have ht : List.lookup k t = none := lookup_none_of_not_mem t k hnd.1
      rw [lookup_foldl_insert_none t _ k ht, lookup_hmInsert]
      simp [h]
    | false =>
      simp only [List.lookup, hbe] at h
      exact ih _ hnd.2 h

/-! ## Lemmas about the three parsing zones -/

theorem goodHeader_spec (l : List Char) (hg : goodHeaderLine l = true) :
    headerRegexMatch l = true ∧
    ∃ n v, splitn2 (chars ": ") l = (n, some v) ∧
      headerNameParse n = some (n.map Char.toLower) ∧
      headerValueParse v = some v ∧
      headerPair l = (n.map Char.toLower, v) := by
  unfold goodHeaderLine at hg
  rw [Bool.and_eq_true] at hg
  obtain ⟨hm, hrest⟩ := hg
  refine ⟨hm, ?_⟩
  match hsp : splitn2 (chars ": ") l with
  | (n, none) => rw [hsp] at hrest; exact Bool.noConfusion hrest
  | (n, some v) =>
    rw [hsp] at hrest
    rw [Bool.and_eq_true] at hrest
    obtain ⟨hn, hv⟩ := hrest
    have hn2 : headerNameParse n = some (n.map Char.toLower) := by
      unfold headerNameParse at hn ⊢
      by_cases hc : (n ≠ [] ∧ n.all isHeaderNameChar = true)
      · rw [if_pos hc]
      · rw [if_neg hc] at hn; simp at hn
    have hv2 : headerValueParse v = some v := by
      unfold headerValueParse at hv ⊢
      by_cases hc : (v.all isHeaderValueChar = true)
      · rw [if_pos hc]
      · rw [if_neg hc] at hv; simp at hv
    refine ⟨n, v, rfl, hn2, hv2, ?_⟩
    unfold headerPair
    rw [hsp]

theorem parseHeaders_good (hs : List (List Char)) (m : List Char)
    (rest : List (List Char))
    (hgood : ∀ h ∈ hs, goodHeaderLine h = true) (hm : headerRegexMatch m = false) :
    parseHeaders (hs ++ m :: rest) = .ok (hs.map headerPair) (some m) rest := by
  induction hs with
  | nil => simp [parseHeaders, hm]
  | cons h t ih =>
    obtain ⟨hmatch, n, v, hsp, hn2, hv2, hpair⟩ :=
      goodHeader_spec h (hgood h (by simp))
    have ih2 := ih (fun x hx => hgood x (by simp [hx]))
    simp only [List.cons_append, parseHeaders, hmatch, if_true, hsp, hn2, hv2,
      List.append_eq, ih2, List.map_cons, hpair]

theorem foldl_newline (rest : List (List Char)) : ∀ (a : List Char),
    rest.foldl (fun acc l => acc ++ '\n' :: l) a =
      a ++ (rest.map (fun l => '\n' :: l)).flatten := by
  induction rest with
  | nil => intro a; simp
  | cons r t ih =>
    intro a
    simp only [List.foldl_cons, List.map_cons, List.flatten_cons, ih,
      List.append_assoc, List.cons_append]

theorem joinBody_some (b : List Char) (rest : List (List Char)) :
    joinBody (some b) rest =
      some (some (b ++ (rest.map (fun l => '\n' :: l)).flatten)) := by
  cases rest with
  | nil => simp [joinBody]
  | cons r t => simp only [joinBody, foldl_newline]

theorem parseHeaders_ok_inv (ls : List (List Char)) :
    ∀ (hs : List (List Char × List Char)) (rem : List (List Char)),
      parseHeaders ls = .ok hs none rem → rem = [] := by
  induction ls with
  | nil =>
    intro hs rem h
    simp only [parseHeaders, HeaderScan.ok.injEq] at h
    exact h.2.2.symm
  | cons line t ih =>
    intro hs rem h
    simp only [parseHeaders] at h
    by_cases hm : headerRegexMatch line = true
    · rw [if_pos hm] at h
      cases hn : headerNameParse (splitn2 (chars ": ") line).1 with
      | none => simp [hn] at h
      | some nm =>
        simp only [hn] at h
        cases hsp : (splitn2 (chars ": ") line).2 with
        | none => simp [hsp] at h
        | some v =>
          simp only [hsp] at h
          cases hv : headerValueParse v with
          | none => simp [hv] at h
          | some vv =>
            simp only [hv] at h
            cases hrec : parseHeaders t with
            | ok hs2 seed2 rem2 =>
              simp only [hrec, HeaderScan.ok.injEq] at h
              obtain ⟨-, h2, h3⟩ := h
              subst h2
              subst h3
              exact ih hs2 _ hrec
            | err e => simp [hrec] at h
            | panicked => simp [hrec] at h
    · rw [if_neg hm] at h
      simp only [HeaderScan.ok.injEq] at h
      exact Option.noConfusion h.2.1

/-- Every line matching the header pattern contains a colon: the pattern
requires one right after the name run. -/
theorem headerRegexMatch_colon_mem (l : List Char)
    (h : headerRegexMatch l = true) : ':' ∈ l := by
  simp only [headerRegexMatch] at h
  cases hd : l.drop (l.takeWhile isHeaderPatChar).length with
  | nil => rw [hd] at h; exact Bool.noConfusion h
  | cons c rest =>
    rw [hd] at h
    simp only [Bool.and_eq_true, beq_iff_eq] at h
    have hc : c = ':' := h.1.2
    subst hc
    exact List.mem_of_mem_drop (hd ▸ List.mem_cons_self ':' rest)

/-- When the `": "` separator is absent, the single `splitn` part is the
whole line. -/
theorem splitn2_none_fst (sep l : List Char) (h : (splitn2 sep l).2 = none) :
    (splitn2 sep l).1 = l := by
  unfold splitn2 at h ⊢
  cases hsp : splitOnFirst sep l with
  | none => rfl
  | some p =>
    obtain ⟨a, b⟩ := p
    simp [hsp] at h

/-- A token containing a colon is never a valid header name. -/
theorem headerNameParse_colon (n : List Char) (h : ':' ∈ n) :
    headerNameParse n = none := by
  unfold headerNameParse
  rw [if_neg]
  rintro ⟨-, hall⟩
  have h2 := List.all_eq_true.mp hall ':' h
  exact absurd h2 (by decide)

/-- The header loop never panics: a regex-matching line without the `": "`
separator keeps its colon inside the name part, so the name validation
fails with a structured error before the second `unwrap` is reached. -/
theorem parseHeaders_no_panic (ls : List (List Char)) :
    parseHeaders ls ≠ HeaderScan.panicked := by
  induction ls with
  | nil => simp [parseHeaders]
  | cons line t ih =>
    simp only [parseHeaders]
    by_cases hm : headerRegexMatch line = true
    · rw [if_pos hm]
      cases hn : headerNameParse (splitn2 (chars ": ") line).1 with
      | none => simp
      | some nm =>
        cases hsp : (splitn2 (chars ": ") line).2 with
        | none =>
          have h1 : (splitn2 (chars ": ") line).1 = line := splitn2_none_fst _ _ hsp
          have h2 : headerNameParse line = none :=
            headerNameParse_colon line (headerRegexMatch_colon_mem line hm)
          rw [h1, h2] at hn
          exact Option.noConfusion hn
        | some v =>
          cases hv : headerValueParse v with
          | none => simp [hv]
          | some vv =>
            cases hrec : parseHeaders t with
            | ok hs seed rem => simp [hv]
            | err e => simp [hv]
            | panicked => exact absurd hrec ih
    · rw [if_neg hm]
      simp

/-- `parse` as a whole never panics: Zone 1 only branches on options, the
header loop never panics, and a header scan with no body seed leaves no
remaining lines for the body unwrap. -/
theorem parseFile_total (t : List Char) :
    (∃ i, parseFile t = ParseOutcome.ok i) ∨
    (∃ e, parseFile t = ParseOutcome.err e) := by
  unfold parseFile
  cases hls : rustLines t with
  | nil => right; exact ⟨ParseErr.malformedRequestLine, rfl⟩
  | cons fline tail =>
    cases hmp : methodParse (splitn2 [' '] fline).1 with
    | none => right; exact ⟨ParseErr.methodError, by simp [parseLines, hmp]⟩
    | some M =>
      cases hsp : (splitn2 [' '] fline).2 with
      | none =>
        right
        exact ⟨ParseErr.malformedRequestLine, by simp [parseLines, hmp, hsp]⟩
      | some urlRaw =>
        cases hu : urlParse urlRaw with
        | none => right; exact ⟨ParseErr.urlError, by simp [parseLines, hmp, hsp, hu]⟩
        | some u =>
          have hred : parseLines (fline :: tail) = afterZone1 M u tail := by
            simp only [parseLines, hmp, hsp, hu]
          rw [hred]
          cases hph : parseHeaders tail with
          | panicked => exact absurd hph (parseHeaders_no_panic tail)
          | err e => right; exact ⟨e, by simp [afterZone1, hph]⟩
          | ok hs seed rem =>
            cases seed with
            | none =>
              have hrem : rem = [] := parseHeaders_ok_inv tail hs rem hph
              subst hrem
              left
              exact ⟨⟨M, u, hs, none⟩, by simp [afterZone1, hph, joinBody]⟩
            | some b =>
              left
              exact ⟨⟨M, u, hs, some (b ++ (rem.map (fun l => '\n' :: l)).flatten)⟩,
                by simp [afterZone1, hph, joinBody_some]⟩

theorem zone1_sound (fline : List Char) (tail : List (List Char)) (M u : List Char)
    (h : zone1Parse fline = some (M, u)) :
    parseLines (fline :: tail) = afterZone1 M u tail := by
  unfold zone1Parse at h
  cases hmp : methodParse (splitn2 [' '] fline).1 with
  | none => simp [hmp] at h
  | some M2 =>
    cases hsp : (splitn2 [' '] fline).2 with
    | none => simp [hmp, hsp] at h
    | some urlRaw =>
      cases hu : urlParse urlRaw with
      | none => simp [hmp, hsp, hu] at h
      | some u2 =>
        simp only [hmp, hsp, hu, Option.map_some', Option.some.injEq,
          Prod.mk.injEq] at h
        obtain ⟨h1, h2⟩ := h
        subst h1
        subst h2
        simp only [parseLines, hmp, hsp, hu]

theorem render_no_tmpl (m : List (String × JsonVal)) (l : List Char)
    (h : ¬ tmplOpen <:+: l) : renderChars m l = some l := by
  unfold renderChars
  cases hsp : splitOnFirst tmplOpen l with
  | some p => exact absurd (splitOnFirst_some_occurs _ _ _ hsp) h
  | none => simp only [renderAux, hsp]

/-! ## Claim theorems -/

/-- C1 counterexample: the line `X-Foo:bar` matches the header pattern but
has no `": "` separator, so its single `splitn` part is the whole line,
whose colon fails the header-name validation — `parse` aborts with a
header-name error: the matching line does not become a header pair and the
non-matching line `!` does not become the body. -/
theorem c1_counterexample :
    parseFile (chars "GET http://a\nX-Foo:bar\n!") =
      ParseOutcome.err ParseErr.headerNameError ∧
    parseFile (chars "GET http://a\nX-Foo:bar\n!") ≠ ParseOutcome.ok
      ⟨chars "GET", chars "http://a/", [(chars "x-foo", chars "bar")],
        some (chars "!")⟩ := by decide

/-- C1 amended: when every line of the header block, besides matching the
header pattern, contains the `": "` separator with a valid header-name
token before it and a valid header value after it, `parse` turns each such
line into exactly one (name, value) pair in the original order (duplicates
kept), and the first non-matching line is not discarded: it seeds the body,
followed by the remaining lines. -/
theorem c1_amended (s fline m : List Char) (hs rest : List (List Char))
    (M u : List Char)
    (hlines : rustLines s = fline :: (hs ++ m :: rest))
    (hz1 : zone1Parse fline = some (M, u))
    (hgood : ∀ h ∈ hs, goodHeaderLine h = true)
    (hm : headerRegexMatch m = false) :
    parseFile s = ParseOutcome.ok
      ⟨M, u, hs.map headerPair,
        some (m ++ (rest.map (fun l => '\n' :: l)).flatten)⟩ := by
  unfold parseFile
  rw [hlines, zone1_sound fline _ M u hz1]
  unfold afterZone1
  rw [parseHeaders_good hs m rest hgood hm]
  simp only [joinBody_some]

/-- Witness for C1 amended: two identical header lines each become one pair
(duplicates kept, names lowercased) and the first non-matching line `!x`
seeds the body. -/
theorem c1_amended_witness :
    parseFile (chars "GET http://a\nA: 1\nA: 1\n!x\ntail") = ParseOutcome.ok
      ⟨chars "GET", chars "http://a/", [(chars "a", chars "1"), (chars "a", chars "1")],
        some (chars "!x\ntail")⟩ := by
  have h := c1_amended (chars "GET http://a\nA: 1\nA: 1\n!x\ntail")
    (chars "GET http://a") (chars "!x") [chars "A: 1", chars "A: 1"] [chars "tail"]
    (chars "GET") (chars "http://a/") (by decide) (by decide)
    (by decide) (by decide)
  exact h

/-- C2: when the header block is followed by an empty line and then body
content, the empty line seeds the body, so the body is the lines after the
separator joined with leading newline separators — a leading newline before
the content. -/
theorem c2_blank_separator_body (s fline : List Char) (hs bs : List (List Char))
    (M u : List Char)
    (hlines : rustLines s = fline :: (hs ++ [] :: bs))
    (hz1 : zone1Parse fline = some (M, u))
    (hgood : ∀ h ∈ hs, goodHeaderLine h = true)
    (hbs : bs ≠ []) :
    parseFile s = ParseOutcome.ok
      ⟨M, u, hs.map headerPair, some ((bs.map (fun l => '\n' :: l)).flatten)⟩ := by
  unfold parseFile
  rw [hlines, zone1_sound fline _ M u hz1]
  unfold afterZone1
  rw [parseHeaders_good hs [] bs hgood rfl]
  simp only [joinBody_some, List.nil_append]

/-- Witness for C2 at the spec's Scenario B: the body is the content with a
leading newline. -/
theorem c2_blank_separator_body_witness :
    parseFile (chars "POST https://example.com\nx-example-header: lolwat\n\nrequest body content") =
      ParseOutcome.ok ⟨chars "POST", chars "https://example.com/",
        [(chars "x-example-header", chars "lolwat")],
        some (chars "\nrequest body content")⟩ := by
  have h := c2_blank_separator_body
    (chars "POST https://example.com\nx-example-header: lolwat\n\nrequest body content")
    (chars "POST https://example.com") [chars "x-example-header: lolwat"]
    [chars "request body content"] (chars "POST") (chars "https://example.com/")
    (by decide) (by decide) (by decide) (by decide)
  exact h

/-- C3: Zone 1 splits the first line at the first space; parsing fails when
there is no line, fails when the line has no space (with a method error
when the whole line is not a valid method token, else the missing-remainder
error), fails when the method token is invalid, fails when the remainder is
not an absolute URL, and otherwise continues with the method and the
normalized URL; a bare-authority URL gains a trailing slash. -/
theorem c3_request_line :
    (∀ s : List Char, rustLines s = [] →
      parseFile s = ParseOutcome.err ParseErr.malformedRequestLine) ∧
    (∀ (s fline : List Char) (tail : List (List Char)),
      rustLines s = fline :: tail → splitOnFirst [' '] fline = none →
      parseFile s = ParseOutcome.err ParseErr.methodError ∨
      parseFile s = ParseOutcome.err ParseErr.malformedRequestLine) ∧
    (∀ (s fline mtok r : List Char) (tail : List (List Char)),
      rustLines s = fline :: tail → splitOnFirst [' '] fline = some (mtok, r) →
      methodParse mtok = none →
      parseFile s = ParseOutcome.err ParseErr.methodError) ∧
    (∀ (s fline mtok r M : List Char) (tail : List (List Char)),
      rustLines s = fline :: tail → splitOnFirst [' '] fline = some (mtok, r) →
      methodParse mtok = some M → urlParse r = none →
      parseFile s = ParseOutcome.err ParseErr.urlError) ∧
    (∀ (s fline mtok r M u : List Char) (tail : List (List Char)),
      rustLines s = fline :: tail → splitOnFirst [' '] fline = some (mtok, r) →
      methodParse mtok = some M → urlParse r = some u →
      parseFile s = afterZone1 M u tail) ∧
    urlParse (chars "https://example.com") = some (chars "https://example.com/") := by
  refine ⟨?_, ?_, ?_, ?_, ?_, by decide⟩
  · intro s h
    unfold parseFile
    rw [h]
    rfl
  · intro s fline tail h1 h2
    have hsp : splitn2 [' '] fline = (fline, none) := by
      unfold splitn2; rw [h2]
    unfold parseFile
    rw [h1]
    cases hmp : methodParse fline with
    | none => left; simp [parseLines, hsp, hmp]
    | some M => right; simp [parseLines, hsp, hmp]
  · intro s fline mtok r tail h1 h2 h3
    have hsp : splitn2 [' '] fline = (mtok, some r) := by
      unfold splitn2; rw [h2]
    unfold parseFile
    rw [h1]
    simp [parseLines, hsp, h3]
  · intro s fline mtok r M tail h1 h2 h3 h4
    have hsp : splitn2 [' '] fline = (mtok, some r) := by
      unfold splitn2; rw [h2]
    unfold parseFile
    rw [h1]
    simp [parseLines, hsp, h3, h4]
  · intro s fline mtok r M u tail h1 h2 h3 h4
    have hsp : splitn2 [' '] fline = (mtok, some r) := by
      unfold splitn2; rw [h2]
    unfold parseFile
    rw [h1]
    simp [parseLines, hsp, h3, h4]

/-- Witness for C3 at concrete inputs: empty text, a spaceless first line, an
invalid method token, an unparseable URL, and a well-formed request line. -/
theorem c3_request_line_witness :
    parseFile (chars "") = ParseOutcome.err ParseErr.malformedRequestLine ∧
    (parseFile (chars "GET") = ParseOutcome.err ParseErr.methodError ∨
     parseFile (chars "GET") = ParseOutcome.err ParseErr.malformedRequestLine) ∧
    parseFile (chars "( http://a") = ParseOutcome.err ParseErr.methodError ∧
    parseFile (chars "GET nourl") = ParseOutcome.err ParseErr.urlError ∧
    parseFile (chars "GET http://a\nX: y") =
      afterZone1 (chars "GET") (chars "http://a/") [chars "X: y"] :=
  ⟨c3_request_line.1 (chars "") (by decide),
   c3_request_line.2.1 (chars "GET") (chars "GET") [] (by decide) (by decide),
   c3_request_line.2.2.1 (chars "( http://a") (chars "( http://a") (chars "(")
     (chars "http://a") [] (by decide) (by decide) (by decide),
   c3_request_line.2.2.2.1 (chars "GET nourl") (chars "GET nourl") (chars "GET")
     (chars "nourl") (chars "GET") [] (by decide) (by decide) (by decide) (by decide),
   c3_request_line.2.2.2.2.1 (chars "GET http://a\nX: y") (chars "GET http://a")
     (chars "GET") (chars "http://a") (chars "GET") (chars "http://a/")
     [chars "X: y"] (by decide) (by decide) (by decide) (by decide)⟩

/-- C4: a structural failure of Zones 1 or 2 is fatal — the call reports the
error and the instance's parsed result stays absent; and once Zone 1
produced a method and URL and the header scan succeeded, Zone 3 cannot
fail: some structured request is always produced from the remaining text. -/
theorem c4_failure_semantics :
    (∀ (fs : List Char → Option (List Char)) (r : Request)
       (env : Option (List (String × JsonVal))) (extra : List (String × JsonVal))
       (t t2 : List Char) (e : ParseErr),
       r.fstr = some t → r.inner = none →
       renderChars (combinedArgs env extra) t = some t2 →
       parseFile t2 = ParseOutcome.err e →
       (Request.parseReq fs r env extra).1.inner = none ∧
       (Request.parseReq fs r env extra).2 = some (Failure.parseError e)) ∧
    (∀ (M u : List Char) (tail : List (List Char))
       (hs : List (List Char × List Char)) (seed : Option (List Char))
       (rem : List (List Char)),
       parseHeaders tail = HeaderScan.ok hs seed rem →
       ∃ i, afterZone1 M u tail = ParseOutcome.ok i) := by
  constructor
  · intro fs r env extra t t2 e hf hi hr hp
    have hload : Request.load fs r = some (r, 0) := by
      unfold Request.load; rw [hf]
    have hgd : r.fstr.getD [] = t := by rw [hf]; rfl
    simp only [Request.parseReq, hload, hgd, hr, hp]
    exact ⟨hi, trivial⟩
  · intro M u tail hs seed rem hph
    unfold afterZone1
    rw [hph]
    cases seed with
    | none =>
      have hrem : rem = [] := parseHeaders_ok_inv tail hs rem hph
      subst hrem
      exact ⟨⟨M, u, hs, none⟩, rfl⟩
    | some b =>
      simp only [joinBody_some]
      exact ⟨⟨M, u, hs, some (b ++ (rem.map (fun l => '\n' :: l)).flatten)⟩, rfl⟩

/-- Witness for C4: a request whose only line has no space fails Zone 1 and
leaves the parsed result absent; a well-formed header scan always yields a
structured request. -/
theorem c4_failure_semantics_witness :
    ((Request.parseReq fsConst ⟨chars "p", some (chars "nope"), none⟩ none []).1.inner
        = none ∧
     (Request.parseReq fsConst ⟨chars "p", some (chars "nope"), none⟩ none []).2 =
        some (Failure.parseError ParseErr.malformedRequestLine)) ∧
    ∃ i, afterZone1 (chars "GET") (chars "http://a/") [chars "x: y"] =
      ParseOutcome.ok i :=
  ⟨c4_failure_semantics.1 fsConst ⟨chars "p", some (chars "nope"), none⟩ none []
     (chars "nope") (chars "nope") ParseErr.malformedRequestLine rfl rfl
     (by decide) (by decide),
   c4_failure_semantics.2 (chars "GET") (chars "http://a/") [chars "x: y"]
     [(chars "x", chars "y")] none [] (by decide)⟩

/-- C8: a text with no template placeholder renders to itself under any
variable mapping, and the parse outcome of the instance is the same whether
or not expansion ran with those variables. -/
theorem c8_no_placeholder_roundtrip (fs : List Char → Option (List Char))
    (p t : List Char) (env : Option (List (String × JsonVal)))
    (extra : List (String × JsonVal)) (h : ¬ tmplOpen <:+: t) :
    renderChars (combinedArgs env extra) t = some t ∧
    Request.parseReq fs ⟨p, some t, none⟩ env extra =
      Request.parseReq fs ⟨p, some t, none⟩ none [] := by
  have h1 := render_no_tmpl (combinedArgs env extra) t h
  have h2 := render_no_tmpl (combinedArgs none []) t h
  refine ⟨h1, ?_⟩
  have hload : Request.load fs ⟨p, some t, none⟩ = some (⟨p, some t, none⟩, 0) := rfl
  simp only [Request.parseReq, hload, Option.getD_some, h1, h2]

/-- Witness for C8 at a placeholder-free request text with a nonempty
environment and extra arguments. -/
theorem c8_no_placeholder_roundtrip_witness :
    renderChars (combinedArgs (some [("a", JsonVal.str "b")]) [("c", JsonVal.str "d")])
      (chars "GET https://example.com") = some (chars "GET https://example.com") ∧
    Request.parseReq fsConst ⟨chars "p", some (chars "GET https://example.com"), none⟩
      (some [("a", JsonVal.str "b")]) [("c", JsonVal.str "d")] =
    Request.parseReq fsConst ⟨chars "p", some (chars "GET https://example.com"), none⟩
      none [] :=
  c8_no_placeholder_roundtrip fsConst (chars "p") (chars "GET https://example.com")
    (some [("a", JsonVal.str "b")]) [("c", JsonVal.str "d")] (by decide)

/-- C5 counterexample: `X-Foo:bar` matches the header pattern, yet splitting
it at the first `": "` does not yield both a name part and a value part —
the separator is absent and the split has no second component. -/
theorem c5_counterexample :
    headerRegexMatch (chars "X-Foo:bar") = true ∧
    (splitn2 (chars ": ") (chars "X-Foo:bar")).2 = none := by decide

/-- C5 amended: the two `unwrap` calls in the header loop never panic, but
not because the split always yields both parts — when the separator is
absent the single part is the whole line, whose colon fails the header-name
validation, and the error propagates before the second `unwrap` is
evaluated.  `parse` always produces a structured result or a structured
error; in particular `X-Foo:bar` (no space after the colon) and
`X-Foo:` followed by a tab both give a header-name error, not a panic. -/
theorem c5_amended :
    (∀ t : List Char, (∃ i, parseFile t = ParseOutcome.ok i) ∨
      (∃ e, parseFile t = ParseOutcome.err e)) ∧
    parseFile (chars "GET http://a\nX-Foo:bar") =
      ParseOutcome.err ParseErr.headerNameError ∧
    parseFile (chars "GET http://a\nX-Foo:\tbar") =
      ParseOutcome.err ParseErr.headerNameError :=
  ⟨parseFile_total, by decide, by decide⟩

/-- C6: a `parse` call does not consume the original unexpanded text — it
stores the rendered text back into the instance, so after one call the raw
text differs from the original, and a second call renders the
already-expanded text again (the placeholder-shaped value bound to `v` is
substituted on re-parse). -/
theorem c6_raw_text_overwritten :
    c6step1.fstr = some (chars "GET http://a\nx: \x7b\x7bw\x7d\x7d") ∧
    c6step1.fstr ≠ c6req.fstr ∧
    (Request.parseReq fsConst c6step1 none c6args).1.fstr =
      some (chars "GET http://a\nx: ha") := by decide

/-- C7: the merged mapping binds every key of the environment and of the
extra arguments, and on a key bound in both the extra-argument value wins;
no entry is dropped. -/
theorem c7_merge_precedence (env extra : List (String × JsonVal)) (k : String)
    (hne : (env.map Prod.fst).Nodup) (hnx : (extra.map Prod.fst).Nodup) :
    (∀ v, List.lookup k extra = some v →
      List.lookup k (combinedArgs (some env) extra) = some v) ∧
    (List.lookup k extra = none →
      List.lookup k (combinedArgs (some env) extra) = List.lookup k env) ∧
    ((k ∈ env.map Prod.fst ∨ k ∈ extra.map Prod.fst) →
      (List.lookup k (combinedArgs (some env) extra)).isSome = true) := by
  have hcomb : combinedArgs (some env) extra =
      extra.foldl (fun m p => hmInsert m p.1 p.2)
        (env.foldl (fun m p => hmInsert m p.1 p.2) []) := rfl
  have henvlayer : List.lookup k
      (env.foldl (fun m p => hmInsert m p.1 p.2) []) = List.lookup k env := by
    cases he : List.lookup k env with
    | none => rw [lookup_foldl_insert_none env [] k he]; rfl
    | some v => rw [lookup_foldl_insert_some env [] k v hne he]
  refine ⟨?_, ?_, ?_⟩
  · intro v hv
    rw [hcomb]
    exact lookup_foldl_insert_some extra _ k v hnx hv
  · intro hnone
    rw [hcomb, lookup_foldl_insert_none extra _ k hnone]
    exact henvlayer
  · intro hmem
    rw [hcomb]
    cases hx : List.lookup k extra with
    | some v =>
      rw [lookup_foldl_insert_some extra _ k v hnx hx]
      rfl
    | none =>
      rw [lookup_foldl_insert_none extra _ k hx, henvlayer]
      rcases hmem with hm | hm
      · exact lookup_isSome_of_mem env k hm
      · have := lookup_isSome_of_mem extra k hm
        rw [hx] at this
        exact Bool.noConfusion this

/-- Witness for C7 at a concrete collision: both maps bind `a`, the merged
map returns the extra-argument value. -/
theorem c7_merge_precedence_witness :
    List.lookup "a" (combinedArgs (some [("a", JsonVal.str "envx")])
      [("a", JsonVal.str "extray")]) = some (JsonVal.str "extray") ∧
    List.lookup "b" (combinedArgs (some [("b", JsonVal.str "envb")])
      [("a", JsonVal.str "extray")]) = List.lookup "b" [("b", JsonVal.str "envb")] :=
  ⟨(c7_merge_precedence [("a", JsonVal.str "envx")] [("a", JsonVal.str "extray")] "a"
      (by decide) (by decide)).1 (JsonVal.str "extray") (by decide),
   (c7_merge_precedence [("b", JsonVal.str "envb")] [("a", JsonVal.str "extray")] "b"
      (by decide) (by decide)).2.1 (by decide)⟩

/-- C9: after a successful `load`, a second `load` on the resulting instance
reads nothing and returns the same cached text, and the first call performed
at most one read. -/
theorem c9_load_idempotent (fs : List Char → Option (List Char)) (r r1 : Request)
    (n : Nat) (h : Request.load fs r = some (r1, n)) :
    Request.load fs r1 = some (r1, 0) ∧ n ≤ 1 := by
  unfold Request.load at h ⊢
  cases hf : r.fstr with
  | some s =>
    rw [hf] at h
    simp only [Option.some.injEq, Prod.mk.injEq] at h
    obtain ⟨rfl, rfl⟩ := h
    rw [hf]
    exact ⟨rfl, Nat.zero_le 1⟩
  | none =>
    rw [hf] at h
    cases hfs : fs r.fpath with
    | none => rw [hfs] at h; exact Option.noConfusion h
    | some s =>
      rw [hfs] at h
      simp only [Option.some.injEq, Prod.mk.injEq] at h
      obtain ⟨rfl, rfl⟩ := h
      exact ⟨rfl, Nat.le.refl⟩

/-- Witness for C9: loading a fresh instance through the one-file file
system, then loading again. -/
theorem c9_load_idempotent_witness :
    Request.load fsConst ⟨chars "p", some (chars "GET http://a"), none⟩ =
      some (⟨chars "p", some (chars "GET http://a"), none⟩, 0) ∧ 1 ≤ 1 :=
  c9_load_idempotent fsConst ⟨chars "p", none, none⟩
    ⟨chars "p", some (chars "GET http://a"), none⟩ 1 (by decide)

/-- C10 counterexample: `name` strips repeatedly, not once — on path
`d/f.reqq.reqq` with directory `d` the code yields `f`, not the `f.reqq` a
single extension strip would produce. -/
theorem c10_counterexample :
    Request.name ⟨chars "d/f.reqq.reqq", none, none⟩ (chars "d") ≠
      nameOnce (chars "d/f.reqq.reqq") (chars "d") := by decide

/-- C10 amended: `name` never fails and strips greedily — a non-prefixed
directory is a no-op (same result as an empty directory), a repeated
directory prefix is stripped again, and a repeated `.reqq` suffix is
stripped again. -/
theorem c10_amended (fpath dir : List Char) (hd : dir ≠ []) :
    (¬ dir <+: fpath → nameFn fpath dir = nameFn fpath []) ∧
    nameFn (dir ++ fpath) dir = nameFn fpath dir ∧
    nameFn (fpath ++ chars ".reqq") [] = nameFn fpath [] := by
  refine ⟨?_, ?_, ?_⟩
  · intro hp
    unfold nameFn
    rw [trimStartMatches_of_not_step fpath dir (fun h => hp h.2),
      trimStartMatches_of_not_step fpath [] (fun h => h.1 rfl)]
  · unfold nameFn
    rw [trimStartMatches_append dir fpath hd]
  · unfold nameFn
    rw [trimStartMatches_of_not_step (fpath ++ chars ".reqq") [] (fun h => h.1 rfl),
      trimStartMatches_of_not_step fpath [] (fun h => h.1 rfl),
      trimStartMatches_slash_append fpath (chars ".reqq") (by decide),
      trimEndMatches_append _ (chars ".reqq") (by decide)]

/-- Witness for C10 amended, at a path the directory does not prefix, a
doubled directory prefix, and a doubled extension. -/
theorem c10_amended_witness :
    nameFn (chars "x") (chars "d") = nameFn (chars "x") [] ∧
    nameFn (chars "d" ++ chars "x") (chars "d") = nameFn (chars "x") (chars "d") ∧
    nameFn (chars "x" ++ chars ".reqq") [] = nameFn (chars "x") [] :=
  ⟨(c10_amended (chars "x") (chars "d") (by decide)).1 (by decide),
   (c10_amended (chars "x") (chars "d") (by decide)).2.1,
   (c10_amended (chars "x") (chars "d") (by decide)).2.2⟩

end Reqq
